import Mathlib

/-!
Verification of the autodoc helper's core (task preparation, progress
ledger, scheduler) against its natural-language specification.

The source is a Python program (`autodoc_helper.py`).  The shallow
embedding below translates the pure content of each function:

* JSON dictionaries become Lean structures; Python `dict.get` with a
  default becomes `Option.getD`; dictionaries used as key/value maps
  become association lists whose keys are unique by construction.
* A scenario blueprint appears in the program in two forms: as a parsed
  tree (used by `count_modules`) and as its `json.dumps` serialization
  (used by the two textual detectors).  The embedding carries both
  forms in a `Blueprint` record; the serializer itself is external
  library code and is not re-modelled.  `json.dumps` runs with
  `ensure_ascii=True`, so the serialized text is ASCII; the regex
  classes `\s` and `\d` and `str.lower` are therefore modelled by their
  ASCII meaning.
* Clock reads (`datetime.datetime.now().isoformat()`) become explicit
  `String` parameters.
* File-system effects become values: reading a possibly missing file
  takes an `Option` of its parsed content, and an operation that either
  writes the ledger or aborts returns an `Option` of the written state.
-/

/-! ## Flow trees (blueprint `flow` lists) -/

mutual

/-- One module node of a flow tree: its module-type tag together with
the optional `routes` list (present when the JSON object has a
`routes` key). -/
inductive FlowNode : Type where
  | mk : String → Option (List Route) → FlowNode

/-- One branch of a router node: its optional nested `flow` list
(present when the JSON object has a `flow` key). -/
inductive Route : Type where
  | mk : Option (List FlowNode) → Route

end

mutual

/-- Embeds the inner function `count_modules` of `prepare_task`
(source lines 342-350): each node counts 1 and, when it carries a
`routes` key, adds the count of every route's nested flow, a missing
nested flow read as `[]` (`route.get("flow", [])`). -/
def count_modules : List FlowNode → Nat
  | [] => 0
  | FlowNode.mk _ none :: rest => 1 + count_modules rest
  | FlowNode.mk _ (some rs) :: rest => 1 + count_modules_routes rs + count_modules rest

/-- The contribution of a `routes` list in `count_modules`: the loop
`for route in item["routes"]: count += count_modules(route.get("flow", []))`. -/
def count_modules_routes : List Route → Nat
  | [] => 0
  | Route.mk none :: rest => count_modules [] + count_modules_routes rest
  | Route.mk (some fl) :: rest => count_modules fl + count_modules_routes rest

end

mutual

/-- Modelled from the spec's words (claim C1): the list of all nodes of
a flow tree, including every node inside nested route branches, at any
depth.  Its length is the spec's "total number of nodes". -/
def spec_all_nodes : List FlowNode → List FlowNode
  | [] => []
  | FlowNode.mk m none :: rest => FlowNode.mk m none :: spec_all_nodes rest
  | FlowNode.mk m (some rs) :: rest =>
      FlowNode.mk m (some rs) :: (spec_all_nodes_routes rs ++ spec_all_nodes rest)

/-- Modelled from the spec's words (claim C1): all nodes reachable
through a list of route branches. -/
def spec_all_nodes_routes : List Route → List FlowNode
  | [] => []
  | Route.mk none :: rest => spec_all_nodes_routes rest
  | Route.mk (some fl) :: rest => spec_all_nodes fl ++ spec_all_nodes_routes rest

end

mutual

theorem count_modules_eq_length : ∀ l : List FlowNode,
    count_modules l = (spec_all_nodes l).length
  | [] => by simp [count_modules, spec_all_nodes]
  | FlowNode.mk m none :: rest => by
      have ih := count_modules_eq_length rest
      simp [count_modules, spec_all_nodes, ih]
      omega
  | FlowNode.mk m (some rs) :: rest => by
      have ih := count_modules_eq_length rest
      have ihr := count_modules_routes_eq_length rs
      simp [count_modules, spec_all_nodes, ih, ihr]
      omega

theorem count_modules_routes_eq_length : ∀ l : List Route,
    count_modules_routes l = (spec_all_nodes_routes l).length
  | [] => by simp [count_modules_routes, spec_all_nodes_routes]
  | Route.mk none :: rest => by
      have ih := count_modules_routes_eq_length rest
      simp [count_modules_routes, spec_all_nodes_routes, count_modules, ih]
  | Route.mk (some fl) :: rest => by
      have ih := count_modules_routes_eq_length rest
      have ihf := count_modules_eq_length fl
      simp [count_modules_routes, spec_all_nodes_routes, ih, ihf]

end

/-! ## Schema index (`db_schema.json`) -/

/-- One column record of a table descriptor, as assembled by the
schema dump (source lines 127-133). -/
structure ColumnDescriptor where
  name : String
  type : String
  nullable : Bool
  default : Option String
  comment : Option String
deriving DecidableEq

/-- One table of the schema index (source lines 126, 164-168, 191-194):
its Postgres schema, its name, its columns, and its constraint records.
Constraint and check-constraint records are opaque to every operation
verified here, so they are carried as uninterpreted strings. -/
structure TableDescriptor where
  schema : String
  name : String
  columns : List ColumnDescriptor
  constraints : List String
  check_constraints : List String
deriving DecidableEq

/-- The parsed schema-index file (source lines 257-267). `enums` and
`functions` are opaque to the verified operations. -/
structure Schema where
  tables : List TableDescriptor
  enums : List String
  functions : List String
deriving DecidableEq

/-! ## Blueprint -/

/-- A scenario blueprint, in the two forms the program uses: the parsed
`flow` list (`blueprint.get("flow", [])`, absent when the JSON object
has no `flow` key) and the `json.dumps(blueprint)` serialization the
two textual detectors scan.  The serializer is external library code
(ASCII output under `ensure_ascii=True`) and is taken as given. -/
structure Blueprint where
  flow : Option (List FlowNode)
  text : List Char

/-- Embeds `extract_tables_from_blueprint` (source lines 289-301):
lowercases the serialized blueprint, returns `[]` when the schema index
is absent or has a falsy `tables` list, and otherwise collects, in
schema order, the name of every table whose lowercased name is a
substring of the lowercased text. -/
def extract_tables_from_blueprint (bp : Blueprint) (schema : Option Schema) : List String :=
  let bp_str := bp.text.map Char.toLower
  match schema with
  | none => []
  | some s =>
      if s.tables.isEmpty then []
      else (s.tables.filter
              (fun t => decide (t.name.data.map Char.toLower <:+: bp_str))).map
            TableDescriptor.name

/-- Embeds `get_relevant_schema` (source lines 304-313): `None` when
the schema is absent or its `tables` list is falsy, otherwise the
tables whose name is a member of `table_names`, kept verbatim in schema
order. -/
def get_relevant_schema (table_names : List String) (schema : Option Schema) :
    Option (List TableDescriptor) :=
  match schema with
  | none => none
  | some s =>
      if s.tables.isEmpty then none
      else some (s.tables.filter (fun t => table_names.contains t.name))

/-! ## Subscenario detection (source lines 334-339)

The scan embeds `re.findall` for the fixed pattern
`"scenario":\s*"?(\d+)"?` on the ASCII serialization: at each
position, the leftmost match is taken and scanning resumes after it.
For this pattern the regex engine's backtracking is vacuous: `\s*` is
maximal (a whitespace character can satisfy neither `"?` nor `\d`),
and when the optional opening quote is consumed the quote-less
alternative would need that quote to be a digit, so a committed
left-to-right scan is exact. -/

/-- The characters of Python's regex class `\s` on ASCII text. -/
def isPyWhitespace (c : Char) : Bool :=
  c = ' ' || c = '\t' || c = '\n' || c = '\r' || c = '\x0b' || c = '\x0c'

/-- Consume an expected literal character sequence, returning the rest
of the text, or `none` when the text does not start with it. -/
def stripLiteral : List Char → List Char → Option (List Char)
  | [], cs => some cs
  | _ :: _, [] => none
  | p :: ps, c :: cs => if c = p then stripLiteral ps cs else none

/-- Consume the optional quote `"?` of the pattern. -/
def dropQuote : List Char → List Char
  | '\"' :: t => t
  | r => r

/-- Match the pattern `"scenario":\s*"?(\d+)"?` at the head of the
text: returns the captured digit group and the text after the match. -/
def matchScenarioAt (cs : List Char) : Option (List Char × List Char) :=
  match stripLiteral "\"scenario\":".data cs with
  | none => none
  | some r1 =>
      let r3 := dropQuote (r1.dropWhile isPyWhitespace)
      let ds := r3.takeWhile Char.isDigit
      if ds.isEmpty then none
      else some (ds, dropQuote (r3.dropWhile Char.isDigit))

/-- Left-to-right non-overlapping scan for the pattern, with explicit
fuel; `findRefsAux_congr` below shows any fuel of at least the text
length gives the same result, so the fuel is not a semantic bound. -/
def findRefsAux : Nat → List Char → List (List Char)
  | 0, _ => []
  | _ + 1, [] => []
  | fuel + 1, c :: rest =>
      match matchScenarioAt (c :: rest) with
      | some (ds, rem) => ds :: findRefsAux fuel rem
      | none => findRefsAux fuel rest

/-- Embeds `re.findall(r'"scenario":\s*"?(\d+)"?', bp_str)`: the list
of captured digit groups of the non-overlapping left-to-right matches. -/
def findScenarioRefs (cs : List Char) : List (List Char) :=
  findRefsAux cs.length cs

/-- Embeds lines 334-339 of `prepare_task`: when the serialized
blueprint contains the call-type marker, the deduplicated scenario-ID
tokens of every `"scenario": <id>` position, else `[]`.  Python's
`list(set(...))` keeps one occurrence of each token; its iteration
order is unspecified, modelled here by keeping first occurrences. -/
def detect_subscenario_references (text : List Char) : List String :=
  if decide ("CallScenario".data <:+: text) || decide ("flow:CallScenario".data <:+: text)
  then ((findScenarioRefs text).map (fun ds => String.mk ds)).dedup
  else []

/-! ## Task builder (`prepare_task`, source lines 316-376) -/

/-- One manifest entry (spec §3).  `is_active` and `type` are read with
`scenario.get(...)` defaults, so they are carried as options. -/
structure Scenario where
  id : Int
  name : String
  category : String
  is_active : Option Bool
  type : Option String
  filename : String
deriving DecidableEq

/-- The task artifact assembled by `prepare_task` (source lines
354-366), field for field. -/
structure TaskArtifact where
  scenario_id : Int
  scenario_name : String
  category : String
  is_active : Bool
  type : String
  module_count : Nat
  tables_detected : List String
  subscenarios_detected : List String
  blueprint : Blueprint
  relevant_db_schema : Option (List TableDescriptor)
  prepared_at : String

/-- The artifact `prepare_task` assembles once the blueprint file has
been read (source lines 329-366); `now` is the clock read at line 365. -/
def build_artifact (scenario : Scenario) (bp : Blueprint) (schema : Option Schema)
    (now : String) : TaskArtifact :=
  let table_names := extract_tables_from_blueprint bp schema
  let relevant_schema :=
    if schema.isSome then get_relevant_schema table_names schema else none
  let subscenarios := detect_subscenario_references bp.text
  { scenario_id := scenario.id
    scenario_name := scenario.name
    category := scenario.category
    is_active := scenario.is_active.getD false
    type := scenario.type.getD "scenario"
    module_count := count_modules (bp.flow.getD [])
    tables_detected := table_names
    subscenarios_detected := subscenarios
    blueprint := bp
    relevant_db_schema := relevant_schema
    prepared_at := now }

/-- Embeds `prepare_task` (source lines 316-376): `none` when the
blueprint file is missing (the function returns `False` and writes
nothing), otherwise the artifact written to `tasks/<id>_task.json`. -/
def prepare_task (scenario : Scenario) (blueprint : Option Blueprint)
    (schema : Option Schema) (now : String) : Option TaskArtifact :=
  match blueprint with
  | none => none
  | some bp => some (build_artifact scenario bp schema now)

/-! ## Progress store (`autodoc_progress.json`, source lines 47-59) -/

/-- One record of the `completed` map (source lines 522-526). -/
structure CompletedEntry where
  completed_at : String
  doc_file : Option String
  findings_file : Option String
deriving DecidableEq

/-- The progress ledger.  The two JSON objects `completed` and `errors`
are carried as their item lists, whose keys are unique (JSON object
semantics); the program never writes to `errors`. -/
structure Progress where
  completed : List (String × CompletedEntry)
  errors : List (String × String)
  started_at : Option String
  last_updated : Option String
deriving DecidableEq

/-- Python truthiness of an optional JSON string as tested by
`not progress.get("started_at")`: both `None` and `""` are falsy. -/
def pyFalsyStr : Option String → Bool
  | none => true
  | some s => decide (s = "")

/-- Embeds `load_progress` (source lines 47-51): the persisted state
when the file exists, otherwise a fresh empty ledger.  Being a total
function, it never fails. -/
def load_progress (stored : Option Progress) : Progress :=
  match stored with
  | some p => p
  | none => { completed := [], errors := [], started_at := none, last_updated := none }

/-- Embeds `save_progress` (source lines 54-59): sets `last_updated`
to the clock value and, when `started_at` is falsy, sets it to the new
`last_updated`; the result is the state persisted to disk. -/
def save_progress (p : Progress) (now : String) : Progress :=
  let p1 := { p with last_updated := some now }
  if pyFalsyStr p1.started_at then { p1 with started_at := p1.last_updated } else p1

/-- Python's `str` on an `int`: decimal digits, `-`-prefixed when
negative — which is exactly `Int.toString`. -/
def pyStr (i : Int) : String := toString i

/-- Python dict assignment `completed[k] = v`: overwrite in place when
the key is present, else append a new last item. -/
def insertCompleted (completed : List (String × CompletedEntry)) (k : String)
    (v : CompletedEntry) : List (String × CompletedEntry) :=
  if (completed.map Prod.fst).contains k
  then completed.map (fun kv => if kv.1 = k then (k, v) else kv)
  else completed ++ [(k, v)]

/-- Python's `.strip().lower()` applied to the confirmation answer
(source line 517): drop whitespace at both ends, then lowercase. -/
def pyStripLower (s : String) : List Char :=
  ((((s.data.dropWhile isPyWhitespace).reverse).dropWhile isPyWhitespace).reverse).map
    Char.toLower

/-- Embeds `cmd_complete` (source lines 506-533).  `doc_files` and
`finding_files` are the two glob results for `<id>_*.md`; `userInput`
is the confirmation answer read when no document was found; `tEntry`
and `tSave` are the clock reads at lines 523 and 55.  Returns the
ledger state written to disk, or `none` when the operation is declined
and aborts before any mutation or save. -/
def cmd_complete (p : Progress) (doc_files finding_files : List String)
    (userInput : String) (tEntry tSave : String) (scenario_id : Int) : Option Progress :=
  if doc_files.isEmpty && (pyStripLower userInput != "s".data) then none
  else
    let entry : CompletedEntry :=
      { completed_at := tEntry
        doc_file := doc_files.head?
        findings_file := finding_files.head? }
    some (save_progress
      { p with completed := insertCompleted p.completed (pyStr scenario_id) entry }
      tSave)

/-! ## Scheduler / reporter (source lines 421-503) -/

/-- The completion-membership test `str(s["id"]) in completed` shared
by `cmd_next` (line 476) and `cmd_status` (lines 430 and 449). -/
def scenario_is_done (p : Progress) (s : Scenario) : Bool :=
  (p.completed.map Prod.fst).contains (pyStr s.id)

/-- The first sort-key component `0 if s.get("is_active") else 1`
(source line 478). -/
def activeRank (s : Scenario) : Nat :=
  if s.is_active.getD false then 0 else 1

/-- Python's `<` on strings: lexicographic comparison of the code
points. -/
def pyCharsLt : List Char → List Char → Bool
  | [], [] => false
  | [], _ :: _ => true
  | _ :: _, [] => false
  | a :: as, b :: bs => if a < b then true else if a = b then pyCharsLt as bs else false

/-- Python's `≤` comparison of the sort-key tuples
`(0 if s.get("is_active") else 1, s["category"], s["id"])` of source
line 478: lexicographic, with strings compared by code points. -/
def nextLe (a b : Scenario) : Bool :=
  decide (activeRank a < activeRank b) ||
    (decide (activeRank a = activeRank b) &&
      (pyCharsLt a.category.data b.category.data ||
        (decide (a.category = b.category) && decide (a.id ≤ b.id))))

/-- Insert an element in front of the first list element it compares
`le` to (stable insertion). -/
def insertSorted (le : α → α → Bool) (x : α) : List α → List α
  | [] => [x]
  | y :: ys => if le x y then x :: y :: ys else y :: insertSorted le x ys

/-- Stable sort by the boolean comparison `le`.  Python's `list.sort`
is a stable sort by the key tuple; for a total transitive comparison a
stable sort's output is unique, so stable insertion sort embeds it
exactly. -/
def pySort (le : α → α → Bool) : List α → List α
  | [] => []
  | x :: xs => insertSorted le x (pySort le xs)

/-- Embeds `cmd_next` (source lines 470-503): the IDs the command
lists — pending manifest entries, stably sorted by the three-part key,
first `count` of them; `[]` when nothing is pending. -/
def cmd_next (manifest : List Scenario) (p : Progress) (count : Nat) : List Int :=
  let pending := manifest.filter (fun s => !(scenario_is_done p s))
  let sorted := pySort nextLe pending
  if pending.isEmpty then []
  else (sorted.take count).map Scenario.id

/-- The aggregate counts computed by `cmd_status` (source lines
427-430). -/
structure StatusReport where
  total : Nat
  done : Nat
  active_count : Nat
  active_done : Nat
deriving DecidableEq

/-- Embeds the aggregate part of `cmd_status` (source lines 421-439). -/
def cmd_status (manifest : List Scenario) (p : Progress) : StatusReport :=
  { total := manifest.length
    done := p.completed.length
    active_count := (manifest.filter (fun s => s.is_active.getD false)).length
    active_done :=
      (manifest.filter (fun s => s.is_active.getD false && scenario_is_done p s)).length }

/-- C1: for every flow tree, `count_modules` returns exactly the total
number of nodes including all nodes in nested route branches at
arbitrary depth (the length of the spec-side list of all nodes), and on
an empty top-level list it returns 0. -/
theorem count_modules_counts_all_nodes :
    (∀ l : List FlowNode, count_modules l = (spec_all_nodes l).length) ∧
    count_modules [] = 0 :=
  ⟨count_modules_eq_length, by simp [count_modules]⟩

/-! ## Theorems: progress store and task-builder determinism -/

/-- C6: loading when no progress-ledger file exists returns the fresh
empty ledger (`completed={}`, `errors={}`, `started_at=null`,
`last_updated=null`) — `load_progress` is a total function, so it never
fails — and loading an existing file returns the persisted state. -/
theorem load_progress_fresh_or_persisted :
    load_progress none =
      { completed := [], errors := [], started_at := none, last_updated := none } ∧
    ∀ p : Progress, load_progress (some p) = p :=
  ⟨rfl, fun _ => rfl⟩

/-- C7 counterexample: a ledger whose `started_at` is the empty string
is set (not null), yet `save_progress` overwrites it, because the code
tests Python truthiness (`not progress.get("started_at")`), which `""`
fails.  So "sets `started_at` only if previously unset, otherwise
leaves it unchanged" is false as stated. -/
theorem save_progress_overwrites_empty_started_at :
    ({ completed := [], errors := [], started_at := some "", last_updated := none } :
        Progress).started_at ≠ none ∧
    (save_progress
        { completed := [], errors := [], started_at := some "", last_updated := none }
        "2026-02-26T10:00:00").started_at ≠ some "" := by
  refine ⟨by simp, ?_⟩
  simp [save_progress, pyFalsyStr]

/-- C7 amended: for every ledger, `save_progress` modifies only the
timestamp fields — it sets `last_updated` to the current time, sets
`started_at` to the current time exactly when `started_at` was
previously falsy (unset, or the degenerate empty string) and leaves it
unchanged otherwise, and leaves the `completed` and `errors` maps
untouched; hence saving a just-loaded, unchanged ledger leaves
`completed` untouched and only updates timestamps. -/
theorem save_progress_frame :
    ∀ (p : Progress) (now : String),
      (save_progress p now).last_updated = some now ∧
      (save_progress p now).completed = p.completed ∧
      (save_progress p now).errors = p.errors ∧
      (save_progress p now).started_at =
        (if pyFalsyStr p.started_at then some now else p.started_at) := by
  intro p now
  refine ⟨?_, ?_, ?_, ?_⟩ <;> simp only [save_progress] <;> split <;> simp

/-- The artifact with its `prepared_at` timestamp blanked, to compare
artifacts up to the timestamp. -/
def artifact_sans_timestamp (a : TaskArtifact) : TaskArtifact :=
  { a with prepared_at := "" }

/-- C5: `prepare_task` on identical inputs is deterministic up to the
`prepared_at` timestamp: two runs at different clock values produce
artifacts that agree on every other field (scenario metadata,
module_count, tables_detected, subscenarios_detected, blueprint,
relevant_db_schema — lists in identical order), and each run stamps
`prepared_at` with its own clock value. -/
theorem prepare_task_deterministic_up_to_timestamp :
    (∀ (sc : Scenario) (bp : Blueprint) (sch : Option Schema) (t1 t2 : String),
        artifact_sans_timestamp (build_artifact sc bp sch t1) =
          artifact_sans_timestamp (build_artifact sc bp sch t2)) ∧
    (∀ (sc : Scenario) (bp : Blueprint) (sch : Option Schema) (t : String),
        (build_artifact sc bp sch t).prepared_at = t) ∧
    (∀ (sc : Scenario) (bp : Option Blueprint) (sch : Option Schema) (t1 t2 : String),
        (prepare_task sc bp sch t1).map artifact_sans_timestamp =
          (prepare_task sc bp sch t2).map artifact_sans_timestamp) := by
  refine ⟨fun sc bp sch t1 t2 => rfl, fun sc bp sch t => rfl, ?_⟩
  intro sc bp sch t1 t2
  cases bp with
  | none => rfl
  | some b => rfl

/-- C9: marking a scenario complete when no on-disk document matched
the `<id>_*.md` convention (empty glob result) and the confirmation
answer, stripped and lowercased, is not the affirmative `"s"`, aborts:
`cmd_complete` returns `none`, meaning the ledger is neither modified
nor saved. -/
theorem cmd_complete_declined_aborts :
    ∀ (p : Progress) (finding_files : List String) (userInput : String)
      (tEntry tSave : String) (sid : Int),
      pyStripLower userInput ≠ "s".data →
      cmd_complete p [] finding_files userInput tEntry tSave sid = none := by
  intro p finds input tE tS sid h
  simp [cmd_complete, h]

/-- C9 witness: declining with the answer `"n"` on a fresh ledger
aborts the completion of scenario 3730131. -/
theorem cmd_complete_declined_aborts_witness :
    cmd_complete (load_progress none) [] [] "n" "2026-02-26T10:00:00"
      "2026-02-26T10:00:01" 3730131 = none :=
  cmd_complete_declined_aborts (load_progress none) [] "n" "2026-02-26T10:00:00"
    "2026-02-26T10:00:01" 3730131 (by decide)

/-! ## Theorems: table detection (claim C2) -/

/-- An infix of a mapped list is the image of an infix of the original
list. -/
lemma map_infix_decomp {f : Char → Char} {name text : List Char}
    (h : name.map f <:+: text.map f) :
    ∃ sub, sub <:+: text ∧ sub.map f = name.map f := by
  obtain ⟨pre, suf, hps⟩ := h
  have h1 : text.map f = pre ++ (name.map f ++ suf) := by
    rw [← hps]; simp [List.append_assoc]
  obtain ⟨a, bc, hta, hA, hBC⟩ := List.map_eq_append_iff.mp h1
  obtain ⟨b, c, hbc, hB, hC⟩ := List.map_eq_append_iff.mp hBC
  exact ⟨b, ⟨a, c, by rw [hta, hbc]; simp⟩, hB⟩

/-- If the lowercased name is not a substring of the lowercased text,
then no case variant of the name occurs as a substring of the text. -/
lemma no_case_occurrence {name text : List Char}
    (h : ¬ (name.map Char.toLower <:+: text.map Char.toLower)) :
    ∀ sub, sub <:+: text → sub.map Char.toLower ≠ name.map Char.toLower :=
  fun _ hsub heq => h (heq ▸ hsub.map Char.toLower)

/-- C2: table detection matches each table name of the schema index
case-insensitively as a substring of the serialized flow text: a table
name occurring verbatim is detected, and if no table name occurs in the
text in any letter case (no substring of the text is a case variant of
a table name), the result is empty. -/
theorem extract_tables_detection :
    (∀ (bp : Blueprint) (s : Schema) (td : TableDescriptor),
        td ∈ s.tables → td.name.data <:+: bp.text →
        td.name ∈ extract_tables_from_blueprint bp (some s)) ∧
    (∀ (bp : Blueprint) (s : Schema),
        (∀ td ∈ s.tables, ∀ sub : List Char, sub <:+: bp.text →
            sub.map Char.toLower ≠ td.name.data.map Char.toLower) →
        extract_tables_from_blueprint bp (some s) = []) := by
  constructor
  · intro bp s td htd hinf
    have hne : ¬ s.tables.isEmpty = true := by
      simp only [List.isEmpty_iff]
      intro h0
      rw [h0] at htd
      simp at htd
    simp only [extract_tables_from_blueprint]
    rw [if_neg hne]
    refine List.mem_map.mpr ⟨td, List.mem_filter.mpr ⟨htd, ?_⟩, rfl⟩
    exact decide_eq_true (hinf.map Char.toLower)
  · intro bp s H
    simp only [extract_tables_from_blueprint]
    split
    · rfl
    · rw [List.filter_eq_nil_iff.mpr]
      · simp
      · intro td htd hdec
        have hlow := of_decide_eq_true hdec
        obtain ⟨sub, hsub, heq⟩ := map_infix_decomp hlow
        exact H td htd sub hsub heq

/-- Sample table descriptor for the `users` table. -/
def usersTable : TableDescriptor :=
  { schema := "public", name := "users", columns := [],
    constraints := [], check_constraints := [] }

/-- Sample table descriptor for the `orders` table. -/
def ordersTable : TableDescriptor :=
  { schema := "public", name := "orders", columns := [],
    constraints := [], check_constraints := [] }

/-- Sample schema index with tables `users` and `orders`. -/
def sampleSchema : Schema :=
  { tables := [usersTable, ordersTable], enums := [], functions := [] }

/-- Sample blueprint whose serialized text mentions only `orders`. -/
def bpOrders : Blueprint :=
  { flow := some [], text := "[\"table\", \"orders\"]".data }

/-- Sample blueprint whose serialized text mentions no table name. -/
def bpNoTables : Blueprint :=
  { flow := some [], text := "[\"module\", \"json\"]".data }

/-- C2 witness: on the sample schema, a text containing `orders`
verbatim detects it, and a text with no occurrence of any table name
in any case detects nothing. -/
theorem extract_tables_detection_witness :
    "orders" ∈ extract_tables_from_blueprint bpOrders (some sampleSchema) ∧
    extract_tables_from_blueprint bpNoTables (some sampleSchema) = [] := by
  constructor
  · exact extract_tables_detection.1 bpOrders sampleSchema ordersTable
      (by decide) (by decide)
  · refine extract_tables_detection.2 bpNoTables sampleSchema ?_
    intro td htd
    have htd' : td = usersTable ∨ td = ordersTable := by
      simpa [sampleSchema] using htd
    rcases htd' with rfl | rfl
    · exact no_case_occurrence (by decide)
    · exact no_case_occurrence (by decide)

/-! ## Theorems: subscenario detection (claim C3) -/

/-- Consuming a literal shortens the text by the literal's length. -/
lemma stripLiteral_length : ∀ (ps cs r : List Char),
    stripLiteral ps cs = some r → r.length + ps.length = cs.length := by
  intro ps
  induction ps with
  | nil =>
      intro cs r h
      simp only [stripLiteral, Option.some.injEq] at h
      simp [h]
  | cons p ps ih =>
      intro cs r h
      cases cs with
      | nil => simp [stripLiteral] at h
      | cons c cs' =>
          simp only [stripLiteral] at h
          split at h
          · have := ih cs' r h
            simp only [List.length_cons]
            omega
          · exact absurd h (by simp)

/-- `dropQuote` never lengthens the text. -/
lemma dropQuote_length_le : ∀ l : List Char, (dropQuote l).length ≤ l.length := by
  intro l
  unfold dropQuote
  split <;> simp

/-- A successful pattern match strictly shortens the text, so the
left-to-right scan terminates and its fuel is irrelevant. -/
lemma matchScenarioAt_length : ∀ (cs ds rem : List Char),
    matchScenarioAt cs = some (ds, rem) → rem.length < cs.length := by
  intro cs ds rem h
  unfold matchScenarioAt at h
  cases hs : stripLiteral "\"scenario\":".data cs with
  | none => rw [hs] at h; simp at h
  | some r1 =>
      rw [hs] at h
      have hlit : ("\"scenario\":".data).length = 11 := rfl
      have l1 := stripLiteral_length _ _ _ hs
      rw [hlit] at l1
      have l2 : (r1.dropWhile isPyWhitespace).length ≤ r1.length :=
        (List.dropWhile_sublist _).length_le
      have l3 := dropQuote_length_le (r1.dropWhile isPyWhitespace)
      have l4 : ((dropQuote (r1.dropWhile isPyWhitespace)).dropWhile Char.isDigit).length ≤
          (dropQuote (r1.dropWhile isPyWhitespace)).length :=
        (List.dropWhile_sublist _).length_le
      have l5 := dropQuote_length_le
        ((dropQuote (r1.dropWhile isPyWhitespace)).dropWhile Char.isDigit)
      dsimp only at h
      split at h
      · simp at h
      · rw [Option.some.injEq, Prod.mk.injEq] at h
        rw [← h.2]
        omega

/-- The fuel of `findRefsAux` is irrelevant once it covers the text
length: the fuelled scan is the true unbounded scan. -/
lemma findRefsAux_congr : ∀ (f₁ f₂ : Nat) (cs : List Char),
    cs.length ≤ f₁ → cs.length ≤ f₂ → findRefsAux f₁ cs = findRefsAux f₂ cs := by
  intro f₁
  induction f₁ with
  | zero =>
      intro f₂ cs h1 h2
      have : cs = [] := by
        cases cs with
        | nil => rfl
        | cons a as => simp at h1
      subst this
      cases f₂ <;> simp [findRefsAux]
  | succ f ih =>
      intro f₂ cs h1 h2
      cases cs with
      | nil => cases f₂ <;> simp [findRefsAux]
      | cons c rest =>
          cases f₂ with
          | zero => simp at h2
          | succ f₂' =>
              simp only [findRefsAux]
              cases hm : matchScenarioAt (c :: rest) with
              | none =>
                  have hr : rest.length ≤ f := by
                    simp only [List.length_cons] at h1; omega
                  have hr2 : rest.length ≤ f₂' := by
                    simp only [List.length_cons] at h2; omega
                  dsimp only
                  rw [ih f₂' rest hr hr2]
              | some p =>
                  obtain ⟨ds, rem⟩ := p
                  have hlt := matchScenarioAt_length _ _ _ hm
                  simp only [List.length_cons] at h1 h2 hlt
                  dsimp only
                  rw [ih f₂' rem (by omega) (by omega)]

/-- The serialized text of the C3 test input: it contains the
call-type marker and each of `"scenario": "42"` and `"scenario": 42`
twice. -/
def c3text : List Char :=
  ("\"name\": \"X\", \"module\": \"flow:CallScenario\", \"scenario\": \"42\", " ++
    "\"scenario\": 42, \"scenario\": \"42\", \"scenario\": 42").data

/-- C3: subscenario detection returns a collection with no duplicates,
and on an input whose serialized text contains the call-type marker
and both the quoted and the unquoted form of scenario ID 42 (each
twice), the result is exactly the single entry `"42"`. -/
theorem detect_subscenarios_dedup_and_single :
    (∀ text : List Char, (detect_subscenario_references text).Nodup) ∧
    detect_subscenario_references c3text = ["42"] := by
  constructor
  · intro text
    unfold detect_subscenario_references
    split
    · exact List.nodup_dedup _
    · simp
  · decide

/-! ## Theorems: schema slice in the task artifact (claim C4) -/

/-- Membership in the schema slice: a descriptor is in the slice
exactly when it is a schema table whose name is among the given
names. -/
lemma get_relevant_schema_mem (names : List String) (s : Schema) (td : TableDescriptor) :
    td ∈ (get_relevant_schema names (some s)).getD [] ↔
      td ∈ s.tables ∧ td.name ∈ names := by
  simp only [get_relevant_schema]
  split
  · rename_i he
    have h0 : s.tables = [] := List.isEmpty_iff.mp he
    simp [h0]
  · simp [List.mem_filter, List.contains, List.elem_iff]

/-- Sample manifest entry used by concrete instances. -/
def sampleScenario : Scenario :=
  { id := 3730131, name := "Sync CRM", category := "CRM",
    is_active := some true, type := none, filename := "3730131.json" }

/-- C4 counterexample: when the schema index is absent, the artifact's
`relevant_db_schema` is null (`None` in the JSON artifact), not the
empty slice `[]`, so "yields an empty slice" is false as stated (the
"rather than an error" part does hold: the artifact is still built). -/
theorem relevant_schema_absent_is_null :
    (build_artifact sampleScenario bpNoTables none
        "2026-02-26T10:00:00").relevant_db_schema = none ∧
    (build_artifact sampleScenario bpNoTables none
        "2026-02-26T10:00:00").relevant_db_schema ≠ some [] := by
  exact ⟨rfl, by decide⟩

/-- C4 amended: with a schema index present, the artifact's
`relevant_db_schema` holds exactly the TableDescriptors of the
detected tables, each preserved verbatim from the schema index (for
the sample schema with `users` and `orders` and a flow text mentioning
only `orders`, exactly the `orders` descriptor); with the schema index
absent, `build_task` still succeeds and stores a null slice rather
than raising an error. -/
theorem relevant_schema_is_detected_slice :
    (∀ (sc : Scenario) (bp : Blueprint) (s : Schema) (t : String) (td : TableDescriptor),
        td ∈ ((build_artifact sc bp (some s) t).relevant_db_schema.getD []) ↔
          td ∈ s.tables ∧
            td.name ∈ (build_artifact sc bp (some s) t).tables_detected) ∧
    (∀ (sc : Scenario) (bp : Blueprint) (t : String),
        (build_artifact sc bp none t).relevant_db_schema = none) ∧
    ((build_artifact sampleScenario bpOrders (some sampleSchema)
          "2026-02-26T10:00:00").tables_detected = ["orders"] ∧
      (build_artifact sampleScenario bpOrders (some sampleSchema)
          "2026-02-26T10:00:00").relevant_db_schema = some [ordersTable]) := by
  refine ⟨?_, fun sc bp t => rfl, by decide, by decide⟩
  intro sc bp s t td
  exact get_relevant_schema_mem (extract_tables_from_blueprint bp (some s)) s td

/-! ## Theorems: scheduler ordering (claim C8) -/

/-- Stable insertion permutes: inserting is consing, up to order. -/
lemma insertSorted_perm (le : α → α → Bool) (x : α) :
    ∀ l : List α, (insertSorted le x l).Perm (x :: l) := by
  intro l
  induction l with
  | nil => exact List.Perm.refl _
  | cons y ys ih =>
      unfold insertSorted
      split
      · exact List.Perm.refl _
      · exact (ih.cons y).trans (List.Perm.swap x y ys)

/-- `pySort` permutes its input. -/
lemma pySort_perm (le : α → α → Bool) :
    ∀ l : List α, (pySort le l).Perm l := by
  intro l
  induction l with
  | nil => exact List.Perm.refl _
  | cons x xs ih =>
      exact (insertSorted_perm le x (pySort le xs)).trans (ih.cons x)

/-- Stable insertion preserves sortedness for a transitive total
comparison. -/
lemma insertSorted_pairwise (le : α → α → Bool)
    (htrans : ∀ a b c, le a b = true → le b c = true → le a c = true)
    (htotal : ∀ a b, le a b = true ∨ le b a = true) (x : α) :
    ∀ l : List α, l.Pairwise (fun a b => le a b = true) →
      (insertSorted le x l).Pairwise (fun a b => le a b = true) := by
  intro l
  induction l with
  | nil => intro _; simp [insertSorted]
  | cons y ys ih =>
      intro h
      rw [List.pairwise_cons] at h
      unfold insertSorted
      split
      · rename_i hxy
        rw [List.pairwise_cons]
        constructor
        · intro z hz
          rcases List.mem_cons.mp hz with rfl | hz'
          · exact hxy
          · exact htrans x y z hxy (h.1 z hz')
        · exact List.pairwise_cons.mpr h
      · rename_i hxy
        have hyx : le y x = true := by
          rcases htotal x y with h' | h'
          · exact absurd h' hxy
          · exact h'
        rw [List.pairwise_cons]
        constructor
        · intro z hz
          have hz' : z ∈ x :: ys := (insertSorted_perm le x ys).subset hz
          rcases List.mem_cons.mp hz' with rfl | hzz
          · exact hyx
          · exact h.1 z hzz
        · exact ih h.2

/-- `pySort` sorts by a transitive total comparison. -/
lemma pySort_pairwise (le : α → α → Bool)
    (htrans : ∀ a b c, le a b = true → le b c = true → le a c = true)
    (htotal : ∀ a b, le a b = true ∨ le b a = true) :
    ∀ l : List α, (pySort le l).Pairwise (fun a b => le a b = true) := by
  intro l
  induction l with
  | nil => simp [pySort]
  | cons x xs ih => exact insertSorted_pairwise le htrans htotal x (pySort le xs) ih

/-- Code-point comparison is transitive. -/
lemma pyCharsLt_trans : ∀ (a b c : List Char),
    pyCharsLt a b = true → pyCharsLt b c = true → pyCharsLt a c = true := by
  intro a
  induction a with
  | nil =>
      intro b c hab hbc
      cases b with
      | nil => simp [pyCharsLt] at hab
      | cons bb bs =>
          cases c with
          | nil => simp [pyCharsLt] at hbc
          | cons cc cs => simp [pyCharsLt]
  | cons aa as ih =>
      intro b c hab hbc
      cases b with
      | nil => simp [pyCharsLt] at hab
      | cons bb bs =>
          cases c with
          | nil => simp [pyCharsLt] at hbc
          | cons cc cs =>
              simp only [pyCharsLt] at hab hbc ⊢
              by_cases h1 : aa < bb
              · by_cases h2 : bb < cc
                · rw [if_pos (lt_trans h1 h2)]
                · by_cases h3 : bb = cc
                  · subst h3
                    rw [if_pos h1]
                  · simp [h2, h3] at hbc
              · by_cases h1' : aa = bb
                · subst h1'
                  rw [if_neg h1, if_pos rfl] at hab
                  by_cases h2 : aa < cc
                  · rw [if_pos h2]
                  · by_cases h3 : aa = cc
                    · subst h3
                      rw [if_neg h2, if_pos rfl] at hbc ⊢
                      exact ih bs cs hab hbc
                    · simp [h2, h3] at hbc
                · simp [h1, h1'] at hab

/-- Code-point comparison is trichotomous. -/
lemma pyCharsLt_trichotomy : ∀ (a b : List Char),
    pyCharsLt a b = true ∨ a = b ∨ pyCharsLt b a = true := by
  intro a
  induction a with
  | nil =>
      intro b
      cases b with
      | nil => exact Or.inr (Or.inl rfl)
      | cons bb bs => exact Or.inl (by simp [pyCharsLt])
  | cons aa as ih =>
      intro b
      cases b with
      | nil => exact Or.inr (Or.inr (by simp [pyCharsLt]))
      | cons bb bs =>
          rcases lt_trichotomy aa bb with h | h | h
          · exact Or.inl (by simp [pyCharsLt, h])
          · subst h
            rcases ih bs with h' | h' | h'
            · exact Or.inl (by simp [pyCharsLt, h'])
            · exact Or.inr (Or.inl (by rw [h']))
            · exact Or.inr (Or.inr (by simp [pyCharsLt, h']))
          · exact Or.inr (Or.inr (by simp [pyCharsLt, h, lt_asymm h]))

/-- The key-tuple comparison is transitive. -/
lemma nextLe_trans : ∀ a b c : Scenario,
    nextLe a b = true → nextLe b c = true → nextLe a c = true := by
  intro a b c hab hbc
  simp only [nextLe, Bool.or_eq_true, Bool.and_eq_true, decide_eq_true_eq] at hab hbc ⊢
  rcases hab with h1 | ⟨h1, h2⟩
  · rcases hbc with g1 | ⟨g1, _⟩
    · exact Or.inl (lt_trans h1 g1)
    · exact Or.inl (g1 ▸ h1)
  · rcases hbc with g1 | ⟨g1, g2⟩
    · exact Or.inl (h1 ▸ g1)
    · refine Or.inr ⟨h1.trans g1, ?_⟩
      rcases h2 with h2 | ⟨h2, h3⟩
      · rcases g2 with g2 | ⟨g2, _⟩
        · exact Or.inl (pyCharsLt_trans _ _ _ h2 g2)
        · exact Or.inl (g2 ▸ h2)
      · rcases g2 with g2 | ⟨g2, g3⟩
        · exact Or.inl (h2 ▸ g2)
        · exact Or.inr ⟨h2.trans g2, le_trans h3 g3⟩

/-- The key-tuple comparison is total. -/
lemma nextLe_total : ∀ a b : Scenario, nextLe a b = true ∨ nextLe b a = true := by
  intro a b
  simp only [nextLe, Bool.or_eq_true, Bool.and_eq_true, decide_eq_true_eq]
  rcases Nat.lt_trichotomy (activeRank a) (activeRank b) with h | h | h
  · exact Or.inl (Or.inl h)
  · rcases pyCharsLt_trichotomy a.category.data b.category.data with h' | h' | h'
    · exact Or.inl (Or.inr ⟨h, Or.inl h'⟩)
    · have hcat : a.category = b.category := String.ext h'
      rcases Int.le_total a.id b.id with h'' | h''
      · exact Or.inl (Or.inr ⟨h, Or.inr ⟨hcat, h''⟩⟩)
      · exact Or.inr (Or.inr ⟨h.symm, Or.inr ⟨hcat.symm, h''⟩⟩)
    · exact Or.inr (Or.inr ⟨h.symm, Or.inl h'⟩)
  · exact Or.inr (Or.inl h)

/-- Every ID returned by `cmd_next` belongs to a manifest entry that is
not marked complete. -/
lemma cmd_next_mem_pending : ∀ (manifest : List Scenario) (p : Progress) (count : Nat)
    (i : Int), i ∈ cmd_next manifest p count →
    ∃ s, s ∈ manifest ∧ scenario_is_done p s = false ∧ s.id = i := by
  intro manifest p count i hi
  simp only [cmd_next] at hi
  split at hi
  · simp at hi
  · obtain ⟨s, hs, hid⟩ := List.mem_map.mp hi
    have h1 := List.take_subset _ _ hs
    have h2 := (pySort_perm nextLe _).subset h1
    obtain ⟨hmem, hpred⟩ := List.mem_filter.mp h2
    exact ⟨s, hmem, by simpa using hpred, hid⟩

/-- Sample manifest entry 1: active, category A. -/
def c8s1 : Scenario :=
  { id := 1, name := "S1", category := "A", is_active := some true,
    type := none, filename := "1.json" }

/-- Sample manifest entry 2: inactive, category A. -/
def c8s2 : Scenario :=
  { id := 2, name := "S2", category := "A", is_active := some false,
    type := none, filename := "2.json" }

/-- Sample manifest entry 3: active, category B. -/
def c8s3 : Scenario :=
  { id := 3, name := "S3", category := "B", is_active := some true,
    type := none, filename := "3.json" }

/-- A sample completion record. -/
def sampleEntry : CompletedEntry :=
  { completed_at := "2026-02-26T10:00:00", doc_file := none, findings_file := none }

/-- A ledger on which the three sample scenarios are all complete. -/
def c8doneProgress : Progress :=
  { completed := [("1", sampleEntry), ("2", sampleEntry), ("3", sampleEntry)],
    errors := [], started_at := some "2026-02-26T09:00:00",
    last_updated := some "2026-02-26T10:00:00" }

/-- C8: `cmd_next` returns the IDs of a list of manifest entries none
of which is marked complete, sorted by the three-part key (active
first, then category ascending, then ID ascending), of length
`min count |pending|`; when every manifest entry is complete it
returns the empty list rather than an error; and on the concrete
manifest {1: active cat A, 2: inactive cat A, 3: active cat B} with
nothing completed, `next(count=2)` returns `[1, 3]`. -/
theorem cmd_next_priority_order :
    (∀ (manifest : List Scenario) (p : Progress) (count : Nat),
        ∃ l : List Scenario,
          cmd_next manifest p count = l.map Scenario.id ∧
          l.Pairwise (fun a b => nextLe a b = true) ∧
          (∀ s ∈ l, s ∈ manifest ∧ scenario_is_done p s = false) ∧
          l.length =
            min count (manifest.filter (fun s => !(scenario_is_done p s))).length) ∧
    (∀ (manifest : List Scenario) (p : Progress) (count : Nat),
        (∀ s ∈ manifest, scenario_is_done p s = true) →
        cmd_next manifest p count = []) ∧
    cmd_next [c8s1, c8s2, c8s3] (load_progress none) 2 = [1, 3] := by
  refine ⟨?_, ?_, by decide⟩
  · intro manifest p count
    refine ⟨(pySort nextLe (manifest.filter (fun s => !(scenario_is_done p s)))).take count,
      ?_, ?_, ?_, ?_⟩
    · simp only [cmd_next]
      split
      · rename_i he
        rw [List.isEmpty_iff.mp he]
        simp [pySort]
      · rfl
    · exact (pySort_pairwise nextLe nextLe_trans nextLe_total _).sublist
        (List.take_sublist _ _)
    · intro s hs
      have h1 := List.take_subset _ _ hs
      have h2 := (pySort_perm nextLe _).subset h1
      obtain ⟨hmem, hpred⟩ := List.mem_filter.mp h2
      exact ⟨hmem, by simpa using hpred⟩
    · rw [List.length_take, (pySort_perm nextLe _).length_eq]
  · intro manifest p count H
    have hp : manifest.filter (fun s => !(scenario_is_done p s)) = [] :=
      List.filter_eq_nil_iff.mpr (fun s hs => by simp [H s hs])
    simp [cmd_next, hp]

/-- C8 witness: on the fully completed sample ledger, `cmd_next`
returns the empty list, not an error. -/
theorem cmd_next_priority_order_witness :
    cmd_next [c8s1, c8s2, c8s3] c8doneProgress 2 = [] :=
  cmd_next_priority_order.2.1 [c8s1, c8s2, c8s3] c8doneProgress 2 (by decide)

/-! ## Theorems: completed-map key convention (claim C10) -/

/-- Saving never touches the `completed` map. -/
lemma save_progress_preserves_completed : ∀ (q : Progress) (t : String),
    (save_progress q t).completed = q.completed := by
  intro q t
  simp only [save_progress]
  split <;> rfl

/-- Inserting under a key puts that key among the map's keys. -/
lemma insertCompleted_mem_keys (c : List (String × CompletedEntry)) (k : String)
    (v : CompletedEntry) : k ∈ (insertCompleted c k v).map Prod.fst := by
  unfold insertCompleted
  split
  · rename_i hc
    have hk : k ∈ c.map Prod.fst := by
      simpa [List.contains, List.elem_iff] using hc
    obtain ⟨kv, hkv, hfst⟩ := List.mem_map.mp hk
    refine List.mem_map.mpr ⟨(k, v), List.mem_map.mpr ⟨kv, hkv, ?_⟩, rfl⟩
    rw [if_pos hfst]
  · simp

/-- C10: every operation on the `completed` map uses the decimal
string of the scenario ID as its key: a successful `cmd_complete`
leaves `str(scenario_id)` among the ledger keys, so every manifest
entry with that integer ID tests as done (the exact test `cmd_status`
uses), is excluded from `cmd_next`'s pending IDs for every manifest
and count, and is counted in `cmd_status`'s `active_done` when it is
active. -/
theorem completed_key_convention :
    ∀ (p : Progress) (doc_files finding_files : List String)
      (userInput tEntry tSave : String) (sid : Int) (p' : Progress),
      cmd_complete p doc_files finding_files userInput tEntry tSave sid = some p' →
      pyStr sid ∈ p'.completed.map Prod.fst ∧
      (∀ s : Scenario, s.id = sid → scenario_is_done p' s = true) ∧
      (∀ (manifest : List Scenario) (count : Nat), sid ∉ cmd_next manifest p' count) ∧
      (∀ (manifest : List Scenario) (s : Scenario), s ∈ manifest → s.id = sid →
          s.is_active.getD false = true → 0 < (cmd_status manifest p').active_done) := by
  intro p docs finds input tE tS sid p' h
  simp only [cmd_complete] at h
  split at h
  · exact absurd h (by simp)
  · rw [Option.some.injEq] at h
    have hc : p'.completed =
        insertCompleted p.completed (pyStr sid)
          { completed_at := tE, doc_file := docs.head?, findings_file := finds.head? } := by
      rw [← h, save_progress_preserves_completed]
    have hkey : pyStr sid ∈ p'.completed.map Prod.fst := by
      rw [hc]
      exact insertCompleted_mem_keys _ _ _
    have hdone : ∀ s : Scenario, s.id = sid → scenario_is_done p' s = true := by
      intro s hs
      simp only [scenario_is_done, hs]
      simpa [List.contains, List.elem_iff] using hkey
    refine ⟨hkey, hdone, ?_, ?_⟩
    · intro manifest count hmem
      obtain ⟨s, _, hfalse, hsid⟩ := cmd_next_mem_pending manifest p' count sid hmem
      rw [hdone s hsid] at hfalse
      exact absurd hfalse (by simp)
    · intro manifest s hsm hsid hact
      have hs : s ∈ manifest.filter
          (fun s => s.is_active.getD false && scenario_is_done p' s) :=
        List.mem_filter.mpr ⟨hsm, by simp [hact, hdone s hsid]⟩
      simp only [cmd_status]
      exact List.length_pos.mpr (fun h0 => by rw [h0] at hs; simp at hs)

/-- The ledger produced by completing scenario 42 on a fresh ledger
with one matching document on disk. -/
def c10Ledger : Progress :=
  { completed := [("42",
      { completed_at := "2026-02-26T10:00:00",
        doc_file := some "docs/scenarios/42_doc.md", findings_file := none })],
    errors := [], started_at := some "2026-02-26T10:00:05",
    last_updated := some "2026-02-26T10:00:05" }

/-- C10 witness: completing scenario 42 on a fresh ledger yields a
ledger whose `completed` map holds the string key `"42"`, and 42 is
not among `cmd_next`'s pending IDs on the sample manifest. -/
theorem completed_key_convention_witness :
    pyStr 42 ∈ c10Ledger.completed.map Prod.fst ∧
    (42 : Int) ∉ cmd_next [c8s1, c8s2, c8s3] c10Ledger 3 := by
  have h := completed_key_convention (load_progress none) ["docs/scenarios/42_doc.md"] []
    "" "2026-02-26T10:00:00" "2026-02-26T10:00:05" 42 c10Ledger (by decide)
  exact ⟨h.1, h.2.2.1 [c8s1, c8s2, c8s3] 3⟩
